import Mathlib

/-!
Shallow embedding of the RodioKt native core (src/rodio/src/main/rust/{lib.rs,
state.rs, error.rs}) and proofs about it.

Modelling conventions:
- Rust machine integers (`u64`, `usize`, `u8`) are modelled as `Nat`; overflow
  never matters for the quantities involved (handles, byte counts).
- `std::time::Duration` is modelled as a `Nat` of nanoseconds;
  `Duration::from_millis(p)` becomes `p * 1000000`.
- `f32` parameters (volume, frequency) are modelled as `Rat`; the code only
  compares them against zero.
- A byte stream (`impl Read`) is modelled as a `List Nat` of the bytes still
  to be delivered; a successful `read` into a buffer of length `k` removes and
  returns some prefix of it, an `io::Result` failure is `Option.none` /
  `Except.error`.
- The external output sink (rodio `Sink`) is a collaborator: the model records
  the calls issued to it in a `sinkLog`.
- The playback callback (a caller-supplied object) is modelled by presence
  (`Option Unit`); invocations on it are recorded as an event list.
-/

deriving instance DecidableEq for Except

namespace Rodio

/-- Error type mirroring `RodioError` in error.rs.  The variants `Seek` and
`InvalidBufferSize` are referenced by lib.rs / state.rs and are included
alongside the variants listed in error.rs.  Float payloads are carried as
`Rat`, string payloads as `String`; the per-variant display prefixes from the
thiserror attributes are irrelevant to the claims, so errors are compared
structurally. -/
inductive RodioError where
  | PlayerNotFound (id : Nat)
  | InvalidVolume (v : Rat)
  | InvalidFrequency (v : Rat)
  | InvalidDuration (d : Nat)
  | InvalidBufferSize (b : Nat)
  | Io (msg : String)
  | Decoder (msg : String)
  | Stream (msg : String)
  | Http (msg : String)
  | HttpStatus (code : Nat)
  | InvalidUrl (url : String)
  | Playlist (msg : String)
  | Seek (msg : String)
  | Internal (msg : String)
deriving DecidableEq

/-- Lifecycle events delivered through the callback (`PlaybackEvent`). -/
inductive PlaybackEvent where
  | Connecting
  | Playing
  | Paused
  | Stopped
deriving DecidableEq

/-- One invocation of the caller's `PlaybackCallback` object. -/
inductive CallbackEvent where
  | onEvent (e : PlaybackEvent)
  | onMetadata (key value : String)
  | onError (e : RodioError)
deriving DecidableEq

/-- One call issued to the external rodio `Sink` collaborator.  `trySeek`
records the `Duration` (nanoseconds) passed to `Sink::try_seek`. -/
inductive SinkCmd where
  | append
  | play
  | pause
  | stop
  | clear
  | setVolume (v : Rat)
  | trySeek (ns : Nat)
deriving DecidableEq

/-- `PlayerState` from state.rs: the sink (modelled by its call log), the
optional callback, the cached total duration (nanoseconds) and the
seekability flag. -/
structure PlayerModel where
  callback : Option Unit
  current_duration : Option Nat
  seekable : Bool
  sinkLog : List SinkCmd
deriving DecidableEq

/-- A fresh `PlayerState` as built by `PlayerState::from_stream`. -/
def defaultPlayer : PlayerModel :=
  { callback := none, current_duration := none, seekable := false, sinkLog := [] }

/-- The registry from state.rs: the `NEXT_ID` atomic counter plus the
`PLAYERS` map, modelled as an association list (the thread-local
`STREAMS` side table holds only the opaque device resource and carries no
claim-relevant state). -/
structure Registry where
  nextId : Nat
  players : List (Nat × PlayerModel)
deriving DecidableEq

/-- The registry at process start: `NEXT_ID` is initialised to 1 and the map
is empty. -/
def initialRegistry : Registry := { nextId := 1, players := [] }

/-- `HashMap::get` on the players map. -/
def lookupPlayer (r : Registry) (id : Nat) : Option PlayerModel :=
  (r.players.find? (fun e => e.1 == id)).map (fun e => e.2)

/-- `register` from state.rs: draw a fresh id from the counter and insert the
entry. -/
def register (p : PlayerModel) (r : Registry) : Nat × Registry :=
  (r.nextId, { nextId := r.nextId + 1, players := (r.nextId, p) :: r.players })

/-- `unregister` from state.rs: remove the entry; report `PlayerNotFound`
when no entry existed. -/
def unregister (id : Nat) (r : Registry) : Except RodioError Registry :=
  let existed := r.players.any (fun e => e.1 == id)
  let r' : Registry := { r with players := r.players.filter (fun e => e.1 != id) }
  if existed then .ok r' else .error (.PlayerNotFound id)

/-- `with_player` from state.rs: shared access to one entry. -/
def with_player {α : Type} (id : Nat) (f : PlayerModel → Except RodioError α)
    (r : Registry) : Except RodioError α :=
  match lookupPlayer r id with
  | none => .error (.PlayerNotFound id)
  | some st => f st

/-- Replace the entry for `id` in the association list. -/
def updatePlayer (id : Nat) (st : PlayerModel) (ps : List (Nat × PlayerModel)) :
    List (Nat × PlayerModel) :=
  ps.map (fun e => if e.1 == id then (e.1, st) else e)

/-- `with_player_mut` from state.rs: exclusive access to one entry; the
closure returns its result together with the updated entry. -/
def with_player_mut {α : Type} (id : Nat)
    (f : PlayerModel → Except RodioError (α × PlayerModel))
    (r : Registry) : Except RodioError (α × Registry) :=
  match lookupPlayer r id with
  | none => .error (.PlayerNotFound id)
  | some st =>
    match f st with
    | .error e => .error e
    | .ok (a, st') => .ok (a, { r with players := updatePlayer id st' r.players })

/-- `create_player` from lib.rs (the external `OutputStream` open is the
collaborator's concern; on its success the new state is registered). -/
def create_player (r : Registry) : Nat × Registry :=
  register defaultPlayer r

/-- `destroy_player` from lib.rs. -/
def destroy_player (id : Nat) (r : Registry) : Except RodioError Registry :=
  unregister id r

/-- `duration_to_millis` from lib.rs: `as_millis` truncated into `u64`. -/
def duration_to_millis (ns : Nat) : Nat :=
  min (ns / 1000000) (2 ^ 64 - 1)

/-- `player_get_duration_ms` from lib.rs. -/
def player_get_duration_ms (id : Nat) (r : Registry) : Except RodioError (Option Nat) :=
  with_player id (fun st => .ok (st.current_duration.map duration_to_millis)) r

/-- `player_is_seekable` from lib.rs. -/
def player_is_seekable (id : Nat) (r : Registry) : Except RodioError Bool :=
  with_player id (fun st => .ok st.seekable) r

/-- `notify_event` from lib.rs: the callback, when attached, receives the
event. -/
def notifyEvent (callback : Option Unit) (e : PlaybackEvent) : List CallbackEvent :=
  match callback with
  | some _ => [.onEvent e]
  | none => []

/-- `notify_error` from lib.rs: the callback, when attached, receives the
error's message. -/
def notifyError (callback : Option Unit) (e : RodioError) : List CallbackEvent :=
  match callback with
  | some _ => [.onError e]
  | none => []

/-- `player_stop` from lib.rs: clear the cached duration and seekability,
stop the sink, then notify `Stopped`. -/
def player_stop (id : Nat) (r : Registry) :
    Except RodioError Registry × List CallbackEvent :=
  match with_player_mut id (fun st =>
      .ok (st.callback,
        { st with current_duration := none, seekable := false,
                  sinkLog := st.sinkLog ++ [.stop] })) r with
  | .error e => (.error e, [])
  | .ok (cb, r') => (.ok r', notifyEvent cb .Stopped)

/-- `player_clear` from lib.rs: like `player_stop` but clears the sink. -/
def player_clear (id : Nat) (r : Registry) :
    Except RodioError Registry × List CallbackEvent :=
  match with_player_mut id (fun st =>
      .ok (st.callback,
        { st with current_duration := none, seekable := false,
                  sinkLog := st.sinkLog ++ [.clear] })) r with
  | .error e => (.error e, [])
  | .ok (cb, r') => (.ok r', notifyEvent cb .Stopped)

/-- `player_seek_position_ms` from lib.rs: requires a known duration, clamps
the target to it, requires seekability, then seeks the sink (the external
sink's `try_seek` is modelled as succeeding, with the target recorded). -/
def player_seek_position_ms (id : Nat) (position_ms : Nat) (r : Registry) :
    Except RodioError Registry :=
  let target := position_ms * 1000000
  match with_player_mut id (fun st =>
      match st.current_duration with
      | none => .error (.Seek "duration unknown or not seekable")
      | some duration =>
        let clamped := if duration < target then duration else target
        if st.seekable then
          .ok ((), { st with sinkLog := st.sinkLog ++ [.trySeek clamped] })
        else .error (.Seek "source is not seekable")) r with
  | .error e => .error e
  | .ok (_, r') => .ok r'

/-- Rust `char::is_whitespace` (the Unicode White_Space property), by code
point. -/
def rustIsWhitespace (c : Char) : Bool :=
  [0x09, 0x0A, 0x0B, 0x0C, 0x0D, 0x20, 0x85, 0xA0, 0x1680,
   0x2000, 0x2001, 0x2002, 0x2003, 0x2004, 0x2005, 0x2006, 0x2007, 0x2008,
   0x2009, 0x200A, 0x2028, 0x2029, 0x202F, 0x205F, 0x3000].contains c.toNat

/-- Rust `str::trim_matches` with a predicate: strip matching characters
from both ends. -/
def trimMatchesP (p : Char → Bool) (l : List Char) : List Char :=
  ((l.dropWhile p).reverse.dropWhile p).reverse

/-- Rust `str::trim_matches(c)`. -/
def trimMatchesChar (c : Char) (l : List Char) : List Char :=
  trimMatchesP (fun x => x == c) l

/-- Rust `str::trim`. -/
def rustTrim (l : List Char) : List Char :=
  trimMatchesP rustIsWhitespace l

/-- Rust `str::split(sep)` on a single character: always yields at least one
part, with empty parts kept. -/
def splitChar (sep : Char) : List Char → List (List Char)
  | [] => [[]]
  | c :: rest =>
    if c = sep then [] :: splitChar sep rest
    else
      match splitChar sep rest with
      | [] => [[c]]
      | p :: ps => (c :: p) :: ps

/-- Rust `str::split_once(sep)`: split at the first occurrence. -/
def splitOnceChar (sep : Char) : List Char → Option (List Char × List Char)
  | [] => none
  | c :: rest =>
    if c = sep then some ([], rest)
    else (splitOnceChar sep rest).map (fun pr => (c :: pr.1, pr.2))

/-- The per-field body of the `filter_map` in `parse_icy_metadata_block`:
trim the field, drop it when empty or without `=` or with an empty value
(after trimming whitespace and stripping single then double quotes), and
otherwise return the trimmed key with the stripped value. -/
def parseIcyField (part : List Char) : Option (List Char × List Char) :=
  let part := rustTrim part
  if part.isEmpty then none
  else
    match splitOnceChar '=' part with
    | none => none
    | some kv =>
      let value := trimMatchesChar '"' (trimMatchesChar '\'' (rustTrim kv.2))
      if value.isEmpty then none
      else some (rustTrim kv.1, value)

/-- The text-level part of `parse_icy_metadata_block` from lib.rs: trim null
padding then whitespace, return no entries when empty, otherwise split on
`;` and parse each field. -/
def parseIcyText (text : List Char) : List (List Char × List Char) :=
  let trimmed := rustTrim (trimMatchesChar (Char.ofNat 0) text)
  if trimmed.isEmpty then []
  else (splitChar ';' trimmed).filterMap parseIcyField

/-- `String::from_utf8_lossy`, modelled per byte: exact on ASCII bytes (the
only regime the theorems evaluate it on); other bytes become U+FFFD, the
replacement character lossy decoding substitutes for invalid data. -/
def utf8LossyByte (b : Nat) : Char :=
  if b < 128 then Char.ofNat b else Char.ofNat 0xFFFD

/-- `parse_icy_metadata_block` from lib.rs, on the raw metadata block
bytes. -/
def parse_icy_metadata_block (bytes : List Nat) : List (List Char × List Char) :=
  parseIcyText (bytes.map utf8LossyByte)

/-- `IcyMetadataReader` from lib.rs: the inner byte source, the filtered
metadata interval and the countdown to the next metadata block.  The
callback receiving the parsed pairs is a collaborator and is not part of the
byte-level state. -/
structure IcyReader where
  inner : List Nat
  meta_interval : Option Nat
  remaining_until_meta : Nat
deriving DecidableEq

/-- `IcyMetadataReader::new` from lib.rs: keep the interval only when
positive, and start the countdown at the interval (0 when absent). -/
def IcyReader.new (inner : List Nat) (meta_interval : Option Nat) : IcyReader :=
  let interval := match meta_interval with
    | some v => if 0 < v then some v else none
    | none => none
  { inner := inner, meta_interval := interval,
    remaining_until_meta := interval.getD 0 }

/-- The `remaining_until_meta == 0` block of `IcyMetadataReader::read`:
consume the length-prefix byte (reporting end-of-stream as `true` when the
inner source is exhausted), read the `L * 16` metadata bytes exactly (an
`io` failure when too few remain), and reset the countdown to the
interval.  The parsed pairs go to the collaborator callback. -/
def icyConsumeMeta (s : IcyReader) (interval : Nat) : Option (Bool × IcyReader) :=
  match s.inner with
  | [] => some (true, s)
  | l :: rest =>
    if l * 16 ≤ rest.length then
      some (false, { s with inner := rest.drop (l * 16),
                            remaining_until_meta := interval })
    else none

/-- The audio part of `IcyMetadataReader::read`: read at most
`remaining_until_meta` bytes and decrement the countdown by the amount
actually read. -/
def icyReadAudio (s : IcyReader) (bufLen : Nat) : List Nat × IcyReader :=
  let toRead := min bufLen s.remaining_until_meta
  let out := s.inner.take toRead
  (out, { s with inner := s.inner.drop toRead,
                 remaining_until_meta := s.remaining_until_meta - out.length })

/-- `IcyMetadataReader::read` from lib.rs for a buffer of length `bufLen`:
with an interval configured, handle a metadata boundary first and then read
audio up to the boundary; with no interval, pass the read through. -/
def icyRead (s : IcyReader) (bufLen : Nat) : Option (List Nat × IcyReader) :=
  match s.meta_interval with
  | some interval =>
    if s.remaining_until_meta = 0 then
      match icyConsumeMeta s interval with
      | none => none
      | some (true, s') => some ([], s')
      | some (false, s') => some (icyReadAudio s' bufLen)
    else some (icyReadAudio s bufLen)
  | none => some (s.inner.take bufLen, { s with inner := s.inner.drop bufLen })

/-- Issue one `read` per entry of `bufLens` and concatenate the returned
chunks. -/
def icyReadAll (s : IcyReader) : List Nat → Option (List Nat × IcyReader)
  | [] => some ([], s)
  | k :: ks =>
    match icyRead s k with
    | none => none
    | some (out, s') =>
      (icyReadAll s' ks).map (fun pr => (out ++ pr.1, pr.2))

/-- An interleaving step for the handle-uniqueness claim: either a
`create_player` call or a `destroy_player h` call. -/
inductive PlayerOp where
  | create
  | destroy (h : Nat)

/-- Run a sequence of create/destroy calls, collecting the handles returned
by the `create_player` calls in order. -/
def runOps : List PlayerOp → Registry → Registry × List Nat
  | [], r => (r, [])
  | .create :: ops, r =>
      let hr := create_player r
      let rest := runOps ops hr.2
      (rest.1, hr.1 :: rest.2)
  | .destroy h :: ops, r =>
      match destroy_player h r with
      | .ok r' => runOps ops r'
      | .error _ => runOps ops r

/-- A parsed URL, modelling the subset of the `url` crate (used through
`reqwest::Url`) that this code exercises: a scheme and everything after the
`scheme:` separator. -/
structure Url where
  scheme : String
  rest : String
deriving DecidableEq

/-- A valid URL scheme: an ASCII letter followed by letters, digits, `+`,
`-` or `.`. -/
def validScheme (l : List Char) : Bool :=
  match l with
  | [] => false
  | c :: cs => c.isAlpha && cs.all (fun x => x.isAlphanum || x == '+' || x == '-' || x == '.')

/-- `Url::parse`: succeeds exactly when the string carries a valid scheme
before a `:` (a string without one is a relative reference and fails). -/
def urlParse (s : String) : Option Url :=
  match splitOnceChar ':' s.toList with
  | none => none
  | some pr =>
    if validScheme pr.1 then some { scheme := String.mk pr.1, rest := String.mk pr.2 }
    else none

/-- Serialisation of a modelled URL. -/
def Url.toString (u : Url) : String :=
  u.scheme ++ ":" ++ u.rest

/-- The url crate's cannot-be-a-base condition: no authority and a path not
starting with `/`, as for opaque-path URLs such as `data:`. -/
def Url.cannotBeABase (u : Url) : Bool :=
  !(u.rest.toList.take 2 == ['/', '/']) && !(u.rest.toList.take 1 == ['/'])

/-- Split the part after `scheme:` into the `//authority` prefix (when
present) and the path. -/
def splitAuthority (rest : List Char) : List Char × List Char :=
  if rest.take 2 = ['/', '/'] then
    let after := rest.drop 2
    let auth := after.takeWhile (fun c => c != '/')
    let path := after.dropWhile (fun c => c != '/')
    ('/' :: '/' :: auth, if path.isEmpty then ['/'] else path)
  else ([], rest)

/-- `Url::join`, modelling RFC 3986 reference resolution as the url crate
performs it for the cases this code can reach: an absolute reference
replaces the base; joining onto a cannot-be-a-base URL fails; otherwise a
`//`-reference keeps only the scheme, a rooted reference keeps the
authority, and a relative reference replaces the last path segment
(dot-segment normalisation is not modelled; no theorem exercises it). -/
def urlJoin (base : Url) (rel : String) : Option Url :=
  match urlParse rel with
  | some u => some u
  | none =>
    if base.cannotBeABase then none
    else
      let r := rel.toList
      if r.take 2 = ['/', '/'] then some { scheme := base.scheme, rest := String.mk r }
      else
        let ap := splitAuthority base.rest.toList
        if r.take 1 = ['/'] then
          some { scheme := base.scheme, rest := String.mk (ap.1 ++ r) }
        else
          let dir := (ap.2.reverse.dropWhile (fun c => c != '/')).reverse
          let dir := if dir.isEmpty then ['/'] else dir
          some { scheme := base.scheme, rest := String.mk (ap.1 ++ dir ++ r) }

/-- `resolve_hls_url` from lib.rs: an absolute candidate is used verbatim,
otherwise it is joined against the base; a join failure is an
`InvalidUrl` error. -/
def resolve_hls_url (base_url : Url) (candidate : String) : Except RodioError Url :=
  match urlParse candidate with
  | some u => .ok u
  | none =>
    match urlJoin base_url candidate with
    | some u => .ok u
    | none => .error (.InvalidUrl candidate)

/-- A variant entry of a master playlist (`hls_m3u8::tags::VariantStream`):
a regular stream-information entry or an I-frame-only entry, each carrying
its URI and declared bandwidth. -/
inductive VariantStream where
  | ExtXStreamInf (uri : String) (bandwidth : Nat)
  | ExtXIFrame (uri : String) (bandwidth : Nat)
deriving DecidableEq

/-- `VariantStream::bandwidth`. -/
def VariantStream.bandwidth : VariantStream → Nat
  | .ExtXStreamInf _ b => b
  | .ExtXIFrame _ b => b

/-- `hls_m3u8::MasterPlaylist`, reduced to its variant list. -/
structure MasterPlaylist where
  variant_streams : List VariantStream
deriving DecidableEq

/-- The selection loop of `select_hls_variant_url`: fold over the variants,
skipping I-frame entries and keeping the first strictly-larger bandwidth. -/
def selectLoop (best : Option (VariantStream × Nat)) :
    List VariantStream → Option (VariantStream × Nat)
  | [] => best
  | v :: rest =>
    match v with
    | .ExtXIFrame _ _ => selectLoop best rest
    | .ExtXStreamInf uri bw =>
      let takeIt := match best with
        | some pr => decide (pr.2 < bw)
        | none => true
      if takeIt then selectLoop (some (.ExtXStreamInf uri bw, bw)) rest
      else selectLoop best rest

/-- `select_hls_variant_url` from lib.rs. -/
def select_hls_variant_url (master : MasterPlaylist) (base_url : Url) :
    Except RodioError Url :=
  match selectLoop none master.variant_streams with
  | none => .error (.Playlist "hls master playlist has no stream variants")
  | some pr =>
    match pr.1 with
    | .ExtXStreamInf uri _ => resolve_hls_url base_url uri
    | .ExtXIFrame _ _ =>
      .error (.Playlist "hls master playlist has no playable stream variants")

/-- A media segment (`hls_m3u8::MediaSegment`), keeping what
`validate_hls_segment` and URL resolution inspect: whether `map` /
`byte_range` are present, which of the `keys` entries are present, and the
URI. -/
structure MediaSegment where
  map : Bool
  byte_range : Bool
  keys : List Bool
  uri : String
deriving DecidableEq

/-- `hls_m3u8::MediaPlaylist`, reduced to the fields `next_segment_url`
reads (`target_duration` in nanoseconds). -/
structure MediaPlaylist where
  segments : List MediaSegment
  target_duration : Nat
  has_end_list : Bool
  media_sequence : Nat
deriving DecidableEq

/-- `validate_hls_segment` from lib.rs. -/
def validate_hls_segment (segment : MediaSegment) : Except RodioError Unit :=
  if segment.map then .error (.Playlist "hls init segments are not supported")
  else if segment.byte_range then
    .error (.Playlist "hls byte-range segments are not supported")
  else if segment.keys.any (fun k => k) then
    .error (.Playlist "hls encrypted segments are not supported")
  else .ok ()

/-- `hls_refresh_delay` from lib.rs, in milliseconds of target duration to
milliseconds of delay: half the target duration clamped to [500, 2000]. -/
def hls_refresh_delay (target_duration_ms : Nat) : Nat :=
  let millis := target_duration_ms / 2
  let millis := if millis < 500 then 500 else millis
  if millis > 2000 then 2000 else millis

/-- The outcome of one `fetch_hls_media_playlist` call, supplied as an
oracle since it performs HTTP: the parsed playlist and its resolved URL, or
the error. -/
abbrev FetchResult : Type :=
  Except RodioError (MediaPlaylist × Url)

/-- `HlsStreamReader` from lib.rs (`current_response` and `pos` live in
`HlsReadState`, as they are only touched by `read`). -/
structure HlsStreamReader where
  playlist_url : Url
  cached_playlist : Option MediaPlaylist
  next_sequence : Option Nat
  ended : Bool
deriving DecidableEq

/-- `HlsStreamReader::load_playlist`: consume the next modelled fetch
response and cache it. -/
def load_playlist (s : HlsStreamReader) (fetches : List FetchResult) :
    Except RodioError (HlsStreamReader × List FetchResult) :=
  match fetches with
  | [] => .error (.Internal "modeled http response list exhausted")
  | f :: rest =>
    match f with
    | .error e => .error e
    | .ok pr => .ok ({ s with playlist_url := pr.2, cached_playlist := some pr.1 }, rest)

/-- `HlsStreamReader::next_segment_url` from lib.rs.  The `loop` is given
explicit fuel (each retry sleeps in the source, so the model's fuel
exhaustion stands for waiting forever on a live stream); the playlist
refetches consume the `fetches` oracle and the sleep itself is a no-op. -/
def next_segment_url : Nat → HlsStreamReader → List FetchResult →
    Except RodioError (Option Url × HlsStreamReader × List FetchResult)
  | 0, _, _ => .error (.Internal "modeled fuel exhausted")
  | fuel + 1, s0, fetches0 =>
    if s0.ended then .ok (none, s0, fetches0)
    else
      match (match s0.cached_playlist with
             | none => load_playlist s0 fetches0
             | some _ => .ok (s0, fetches0)) with
      | .error e => .error e
      | .ok (s, fetches) =>
        match s.cached_playlist with
        | none => .error (.Internal "hls playlist missing after load")
        | some playlist =>
          let segment_count := playlist.segments.length
          if segment_count = 0 then
            if playlist.has_end_list then .ok (none, { s with ended := true }, fetches)
            else next_segment_url fuel { s with cached_playlist := none } fetches
          else
            let ns0 := s.next_sequence.getD playlist.media_sequence
            let next_seq := max ns0 playlist.media_sequence
            let s1 := if ns0 < playlist.media_sequence
              then { s with next_sequence := some next_seq } else s
            let index := next_seq - playlist.media_sequence
            if segment_count ≤ index then
              if playlist.has_end_list then .ok (none, { s1 with ended := true }, fetches)
              else next_segment_url fuel { s1 with cached_playlist := none } fetches
            else
              match playlist.segments.get? index with
              | none => .error (.Internal "hls segment lookup failed")
              | some segment =>
                match validate_hls_segment segment with
                | .error e => .error e
                | .ok _ =>
                  match resolve_hls_url s1.playlist_url segment.uri with
                  | .error e => .error e
                  | .ok url =>
                    .ok (some url, { s1 with next_sequence := some (next_seq + 1) }, fetches)

/-- The `read`-side state of `HlsStreamReader`: the stream cursor, the
currently open segment body (remaining bytes), and the position counter. -/
structure HlsReadState where
  reader : HlsStreamReader
  current_response : Option (List Nat)
  pos : Nat
deriving DecidableEq

/-- `<HlsStreamReader as Read>::read` from lib.rs, with the playlist
fetches (`pf`) and the per-segment HTTP bodies (`sf`) supplied as oracles.
Returns the read result together with the final state and the two
unconsumed oracle lists, so that theorems can observe which HTTP requests
were issued. -/
def hlsRead : Nat → Nat → HlsReadState → List FetchResult →
    List (Except RodioError (List Nat)) → Nat →
    Except RodioError (List Nat) × HlsReadState × List FetchResult ×
      List (Except RodioError (List Nat))
  | 0, _, st, pf, sf, _ => (.error (.Internal "modeled fuel exhausted"), st, pf, sf)
  | fuel + 1, nfuel, st, pf, sf, bufLen =>
    match st.current_response with
    | some bytes =>
      let chunk := bytes.take bufLen
      if chunk.length ≠ 0 then
        (.ok chunk,
         { st with current_response := some (bytes.drop bufLen),
                   pos := st.pos + chunk.length }, pf, sf)
      else hlsRead fuel nfuel { st with current_response := none } pf sf bufLen
    | none =>
      if st.reader.ended then (.ok [], st, pf, sf)
      else
        match next_segment_url nfuel st.reader pf with
        | .error e => (.error e, st, pf, sf)
        | .ok (none, rd, pf') =>
          (.ok [], { st with reader := { rd with ended := true } }, pf', sf)
        | .ok (some _, rd, pf') =>
          match sf with
          | [] => (.error (.Internal "modeled http response list exhausted"),
                   { st with reader := rd }, pf', [])
          | resp :: sf' =>
            match resp with
            | .error e => (.error e, { st with reader := rd }, pf', sf')
            | .ok bytes =>
              hlsRead fuel nfuel
                { st with reader := rd, current_response := some bytes } pf' sf' bufLen

/-- ASCII lowercasing of one character (`str::to_lowercase` restricted to
the ASCII range the playlist keys use). -/
def charToLower (c : Char) : Char :=
  if 'A' ≤ c && c ≤ 'Z' then Char.ofNat (c.toNat + 32) else c

/-- `starts_with` on character lists. -/
def startsWithL (pre l : List Char) : Bool :=
  l.take pre.length == pre

/-- `key.trim().to_lowercase().starts_with("file")` from
`resolve_playlist`. -/
def keyStartsWithFile (key : List Char) : Bool :=
  startsWithL ['f', 'i', 'l', 'e'] ((rustTrim key).map charToLower)

/-- `candidate.starts_with("http://") || candidate.starts_with("https://")`
from `resolve_playlist`. -/
def looksAbsoluteHttp (candidate : List Char) : Bool :=
  startsWithL ("http://".toList) candidate || startsWithL ("https://".toList) candidate

/-- Strip one trailing carriage return, as `str::lines` does. -/
def stripCR (l : List Char) : List Char :=
  if l.reverse.take 1 = ['\r'] then (l.reverse.drop 1).reverse else l

/-- Rust `str::lines`: split on `\n`, dropping a final empty line and a
trailing `\r` on each line. -/
def rustLines (s : String) : List (List Char) :=
  let parts := splitChar '\n' s.toList
  let parts := match parts.reverse with
    | last :: rest => if last.isEmpty then rest.reverse else parts
    | [] => parts
  parts.map stripCR

/-- The per-line candidate logic of `resolve_playlist` from lib.rs: `none`
(the loop's `continue`) when the trimmed line is blank, a `#` comment, or a
`key=value` pair whose key does not start (case-insensitively) with
"file"; otherwise the candidate is the trimmed value (for a file-key line)
or the bare line. -/
def lineCandidate (line : List Char) : Option (List Char) :=
  let line := rustTrim line
  if line.isEmpty || line.take 1 = ['#'] then none
  else
    match splitOnceChar '=' line with
    | some kv =>
      if keyStartsWithFile kv.1 then some (rustTrim kv.2) else none
    | none => some line

/-- The line scan of `resolve_playlist` from lib.rs: skip non-candidate
lines, return an `http(s)://` candidate verbatim, otherwise try to join it
against the parsed base and fall through to the next line when the base is
unavailable or the join fails. -/
def resolvePlaylistLines (base : Option Url) : List (List Char) → Option String
  | [] => none
  | line :: rest =>
    match lineCandidate line with
    | none => resolvePlaylistLines base rest
    | some candidate =>
      if looksAbsoluteHttp candidate then some (String.mk candidate)
      else
        match base with
        | some b =>
          match urlJoin b (String.mk candidate) with
          | some joined => some joined.toString
          | none => resolvePlaylistLines base rest
        | none => resolvePlaylistLines base rest

/-- `resolve_playlist` from lib.rs. -/
def resolve_playlist (base_url : String) (body : String) : Option String :=
  resolvePlaylistLines (urlParse base_url) (rustLines body)

/-- The call site of `resolve_playlist` in `player_play_radio`: no stream
URL is a hard playlist error. -/
def resolvePlaylistOrError (base_url : String) (body : String) :
    Except RodioError String :=
  match resolve_playlist base_url body with
  | some u => .ok u
  | none => .error (.Playlist "playlist did not contain a stream url")

/-- The candidate notion written in the specification, for comparison with
the code: the first line that is a candidate (a bare URI or a `key=value`
pair whose key starts case-insensitively with "file", blanks and comments
skipped) — per the claim, this candidate alone should determine the
result. -/
def firstCandidateSpec : List (List Char) → Option (List Char)
  | [] => none
  | line :: rest =>
    match lineCandidate line with
    | some c => some c
    | none => firstCandidateSpec rest

/-- `player_callback` from lib.rs. -/
def player_callback (id : Nat) (r : Registry) : Except RodioError (Option Unit) :=
  with_player id (fun st => .ok st.callback) r

/-- The shared shape of the play operations in lib.rs: look up the callback
(failing without any notification when the session is unknown), optionally
notify `Connecting`, run the operation body, and then notify `on_error`
with the error on failure or `Playing` on success.  The body's outcome is
supplied as `attempt` because it performs file/network I/O. -/
def playWithNotification (connecting : Bool) (id : Nat) (r : Registry)
    (attempt : Except RodioError Registry) :
    Except RodioError Registry × List CallbackEvent :=
  match player_callback id r with
  | .error e => (.error e, [])
  | .ok callback =>
    let pre := if connecting then notifyEvent callback .Connecting else []
    match attempt with
    | .error e => (.error e, pre ++ notifyError callback e)
    | .ok r' => (.ok r', pre ++ notifyEvent callback .Playing)

/-- `player_play_file` from lib.rs: file open/decode outcome supplied as the
`attempt` oracle. -/
def player_play_file (id : Nat) (r : Registry)
    (attempt : Except RodioError Registry) :
    Except RodioError Registry × List CallbackEvent :=
  playWithNotification false id r attempt

/-- `player_play_url` from lib.rs: notifies `Connecting` first; the network
body is the `attempt` oracle. -/
def player_play_url (id : Nat) (r : Registry)
    (attempt : Except RodioError Registry) :
    Except RodioError Registry × List CallbackEvent :=
  playWithNotification true id r attempt

/-- `player_play_radio` from lib.rs: same notification wrapper as
`player_play_url`. -/
def player_play_radio (id : Nat) (r : Registry)
    (attempt : Except RodioError Registry) :
    Except RodioError Registry × List CallbackEvent :=
  playWithNotification true id r attempt

/-- `player_play_sine` from lib.rs: parameter validation happens before the
callback lookup; the body itself is pure and is modelled directly. -/
def player_play_sine (id : Nat) (frequency_hz : Rat) (duration_ms : Nat)
    (r : Registry) : Except RodioError Registry × List CallbackEvent :=
  if frequency_hz ≤ 0 then (.error (.InvalidFrequency frequency_hz), [])
  else if duration_ms = 0 then (.error (.InvalidDuration duration_ms), [])
  else
    let attempt := match with_player_mut id (fun st =>
        .ok ((), { st with current_duration := some (duration_ms * 1000000),
                           seekable := false,
                           sinkLog := st.sinkLog ++ [.append] })) r with
      | .error e => .error e
      | .ok pr => .ok pr.2
    playWithNotification false id r attempt

/-- Whether a variant is a regular stream-information entry. -/
def isStreamInf : VariantStream → Bool
  | .ExtXStreamInf _ _ => true
  | .ExtXIFrame _ _ => false

/-- The accumulator invariant of `selectLoop`: any candidate held is a
stream-information entry carrying its own bandwidth. -/
def bestInv : Option (VariantStream × Nat) → Prop
  | none => True
  | some pr => ∃ uri, pr.1 = VariantStream.ExtXStreamInf uri pr.2

/-- Join fields with `;` separators (the inverse image of the `split` the
parser performs). -/
def joinSemis : List (List Char) → List Char
  | [] => []
  | [f] => f
  | f :: rest => f ++ ';' :: joinSemis rest

/-- The simulation invariant for `IcyMetadataReader` over the single-block
layout of claim C1.  `a` is the audio not yet delivered.  Either the reader
still sits before the metadata block (`a1` audio bytes remain until the
length prefix `L`, then `meta`, then the trailing audio `a2`), or the block
has been consumed and only trailing audio remains, covered by the
countdown. -/
def IcyPhase (n L : Nat) (meta : List Nat) (s : IcyReader) (a : List Nat) : Prop :=
  s.meta_interval = some n ∧ meta.length = L * 16 ∧
  ((∃ a1 a2, a = a1 ++ a2 ∧ s.inner = a1 ++ L :: meta ++ a2 ∧
      s.remaining_until_meta = a1.length ∧ a2.length ≤ n)
   ∨ (s.inner = a ∧ a.length ≤ s.remaining_until_meta))

/-- A registry holding one session (handle 1) with a callback attached;
used to instantiate hypothesis-bearing theorems. -/
def sampleCallbackRegistry : Registry :=
  { nextId := 2,
    players := [(1, { callback := some (), current_duration := none,
                      seekable := false, sinkLog := [] })] }

theorem find?_filter_ne (l : List (Nat × PlayerModel)) (id : Nat) :
    (l.filter (fun e => e.1 != id)).find? (fun e => e.1 == id) = none := by
  induction l with
  | nil => rfl
  | cons a l ih =>
    by_cases h : a.1 = id
    · simp [List.filter_cons, h, ih]
    · simp [List.filter_cons, h, List.find?_cons, ih]

theorem find?_updatePlayer (l : List (Nat × PlayerModel)) (id : Nat) (st' : PlayerModel) :
    (updatePlayer id st' l).find? (fun e => e.1 == id) =
      (l.find? (fun e => e.1 == id)).map (fun e => (e.1, st')) := by
  rw [updatePlayer, List.find?_map]
  have hcomp : ((fun (e : Nat × PlayerModel) => e.1 == id) ∘
      fun e => if e.1 == id then (e.1, st') else e) =
      (fun (e : Nat × PlayerModel) => e.1 == id) := by
    funext e
    by_cases h : e.1 = id <;> simp [h]
  rw [hcomp]
  cases hf : l.find? (fun e => e.1 == id) with
  | none => rfl
  | some e =>
    have he : e.1 = id := by
      have := List.find?_some hf
      simpa using this
    simp [he]

theorem find?_updatePlayer_ne (l : List (Nat × PlayerModel)) (id j : Nat)
    (st' : PlayerModel) (hne : j ≠ id) :
    (updatePlayer id st' l).find? (fun e => e.1 == j) =
      l.find? (fun e => e.1 == j) := by
  rw [updatePlayer, List.find?_map]
  have hcomp : ((fun (e : Nat × PlayerModel) => e.1 == j) ∘
      fun e => if e.1 == id then (e.1, st') else e) =
      (fun (e : Nat × PlayerModel) => e.1 == j) := by
    funext e
    by_cases h : e.1 = id <;> simp [h]
  rw [hcomp]
  cases hf : l.find? (fun e => e.1 == j) with
  | none => rfl
  | some e =>
    have he : e.1 = j := by
      have := List.find?_some hf
      simpa using this
    have hid : (e.1 == id) = false := by
      rw [he]
      simpa using hne
    simp [hid]
    exact fun hc => absurd (he.symm.trans hc) hne

theorem with_player_not_found {α : Type} (id : Nat)
    (f : PlayerModel → Except RodioError α) (r : Registry)
    (hl : lookupPlayer r id = none) :
    with_player id f r = .error (.PlayerNotFound id) := by
  simp [with_player, hl]

theorem with_player_mut_not_found {α : Type} (id : Nat)
    (f : PlayerModel → Except RodioError (α × PlayerModel)) (r : Registry)
    (hl : lookupPlayer r id = none) :
    with_player_mut id f r = .error (.PlayerNotFound id) := by
  simp [with_player_mut, hl]

theorem lookup_none_any_false (r : Registry) (id : Nat)
    (hl : lookupPlayer r id = none) :
    r.players.any (fun e => e.1 == id) = false := by
  have hf : r.players.find? (fun e => e.1 == id) = none := by
    cases hfind : r.players.find? (fun e => e.1 == id) with
    | none => rfl
    | some e => rw [lookupPlayer, hfind] at hl; simp at hl
  rw [List.any_eq_false]
  intro x hx
  have := List.find?_eq_none.mp hf x hx
  simpa using this

theorem unregister_not_found (id : Nat) (r : Registry)
    (hl : lookupPlayer r id = none) :
    unregister id r = .error (.PlayerNotFound id) := by
  simp [unregister, lookup_none_any_false r id hl]

/-- C5: after `create_player` returns handle `h`, `destroy_player h`
succeeds; afterwards the entry is gone, so every operation that goes
through `with_player` / `with_player_mut` on `h` — and a second
`destroy_player h` — fails with `PlayerNotFound h`.  Moreover, on any
registry, a handle with no entry makes `destroy_player` and every
shared/exclusive access fail with `PlayerNotFound` carrying that handle,
never a silent no-op. -/
theorem create_destroy_then_player_not_found (r : Registry) (h : Nat) (r₁ : Registry)
    (hc : create_player r = (h, r₁)) :
    (∃ r₂, destroy_player h r₁ = .ok r₂ ∧
      lookupPlayer r₂ h = none ∧
      (∀ (α : Type) (f : PlayerModel → Except RodioError α),
        with_player h f r₂ = .error (.PlayerNotFound h)) ∧
      (∀ (α : Type) (f : PlayerModel → Except RodioError (α × PlayerModel)),
        with_player_mut h f r₂ = .error (.PlayerNotFound h)) ∧
      destroy_player h r₂ = .error (.PlayerNotFound h)) ∧
    (∀ (r' : Registry) (h' : Nat), lookupPlayer r' h' = none →
      destroy_player h' r' = .error (.PlayerNotFound h') ∧
      (∀ (α : Type) (f : PlayerModel → Except RodioError α),
        with_player h' f r' = .error (.PlayerNotFound h')) ∧
      (∀ (α : Type) (f : PlayerModel → Except RodioError (α × PlayerModel)),
        with_player_mut h' f r' = .error (.PlayerNotFound h'))) := by
  have hh : h = r.nextId := by
    have := congrArg Prod.fst hc
    simpa [create_player, register] using this.symm
  have hr₁ : r₁ = { nextId := r.nextId + 1, players := (r.nextId, defaultPlayer) :: r.players } := by
    have := congrArg Prod.snd hc
    simpa [create_player, register] using this.symm
  subst hh hr₁
  constructor
  · have hl : lookupPlayer
        { nextId := r.nextId + 1,
          players := r.players.filter (fun e => e.1 != r.nextId) } r.nextId = none := by
      simp [lookupPlayer, find?_filter_ne]
    refine ⟨{ nextId := r.nextId + 1,
              players := r.players.filter (fun e => e.1 != r.nextId) },
            ?_, hl, fun α f => with_player_not_found _ f _ hl,
            fun α f => with_player_mut_not_found _ f _ hl,
            unregister_not_found _ _ hl⟩
    simp [destroy_player, unregister, List.filter_cons]
  · intro r' h' hl
    exact ⟨unregister_not_found h' r' hl,
      fun α f => with_player_not_found h' f r' hl,
      fun α f => with_player_mut_not_found h' f r' hl⟩

/-- Witness for C5 at a concrete registry. -/
theorem create_destroy_then_player_not_found_witness :
    create_player initialRegistry = (1, { nextId := 2, players := [(1, defaultPlayer)] }) ∧
    (∃ r₂, destroy_player 1 { nextId := 2, players := [(1, defaultPlayer)] } = .ok r₂ ∧
      lookupPlayer r₂ 1 = none ∧
      (∀ (α : Type) (f : PlayerModel → Except RodioError α),
        with_player 1 f r₂ = .error (.PlayerNotFound 1)) ∧
      (∀ (α : Type) (f : PlayerModel → Except RodioError (α × PlayerModel)),
        with_player_mut 1 f r₂ = .error (.PlayerNotFound 1)) ∧
      destroy_player 1 r₂ = .error (.PlayerNotFound 1)) :=
  ⟨by decide,
   (create_destroy_then_player_not_found initialRegistry 1
     { nextId := 2, players := [(1, defaultPlayer)] } (by decide)).1⟩

/-- C6: on an existing session, seeking fails with the seek error when the
cached duration is unknown, fails with the seek error when the source is
not seekable, and when the duration is known and the source seekable a
target beyond the duration is clamped: the sink receives a seek to the
duration itself and the call succeeds. -/
theorem seek_requires_duration_seekable_and_clamps (id pos : Nat) (r : Registry)
    (st : PlayerModel) (hs : lookupPlayer r id = some st) :
    (st.current_duration = none →
      player_seek_position_ms id pos r =
        .error (.Seek "duration unknown or not seekable")) ∧
    (∀ d, st.current_duration = some d → st.seekable = false →
      player_seek_position_ms id pos r = .error (.Seek "source is not seekable")) ∧
    (∀ d, st.current_duration = some d → st.seekable = true → d < pos * 1000000 →
      player_seek_position_ms id pos r =
        .ok { r with players :=
          updatePlayer id { st with sinkLog := st.sinkLog ++ [.trySeek d] } r.players }) := by
  refine ⟨?_, ?_, ?_⟩
  · intro hd
    simp [player_seek_position_ms, with_player_mut, hs, hd]
  · intro d hd hseek
    simp [player_seek_position_ms, with_player_mut, hs, hd, hseek]
  · intro d hd hseek hlt
    simp [player_seek_position_ms, with_player_mut, hs, hd, hseek, hlt]

/-- Witness for C6: duration 50ms, seekable, request 100ms; the sink is
asked to seek to the 50ms duration. -/
theorem seek_requires_duration_seekable_and_clamps_witness :
    (lookupPlayer
      { nextId := 2, players := [(1, { callback := none, current_duration := some 50000000,
                                       seekable := true, sinkLog := [] })] } 1 =
      some { callback := none, current_duration := some 50000000,
             seekable := true, sinkLog := [] }) ∧
    player_seek_position_ms 1 100
      { nextId := 2, players := [(1, { callback := none, current_duration := some 50000000,
                                       seekable := true, sinkLog := [] })] } =
      .ok { nextId := 2, players := [(1, { callback := none, current_duration := some 50000000,
                                           seekable := true, sinkLog := [.trySeek 50000000] })] } := by
  refine ⟨by decide, ?_⟩
  have h := (seek_requires_duration_seekable_and_clamps 1 100
    { nextId := 2, players := [(1, { callback := none, current_duration := some 50000000,
                                     seekable := true, sinkLog := [] })] }
    { callback := none, current_duration := some 50000000,
      seekable := true, sinkLog := [] } (by decide)).2.2 50000000 rfl rfl (by decide)
  simpa [updatePlayer] using h

theorem lookupPlayer_update (r : Registry) (id : Nat) (st st' : PlayerModel)
    (hs : lookupPlayer r id = some st) :
    lookupPlayer { r with players := updatePlayer id st' r.players } id = some st' := by
  cases hf : r.players.find? (fun e => e.1 == id) with
  | none => rw [lookupPlayer, hf] at hs; simp at hs
  | some e => rw [lookupPlayer, find?_updatePlayer, hf]; rfl

theorem lookupPlayer_update_ne (r : Registry) (id j : Nat) (st' : PlayerModel)
    (hne : j ≠ id) :
    lookupPlayer { r with players := updatePlayer id st' r.players } j =
      lookupPlayer r j := by
  rw [lookupPlayer, lookupPlayer, find?_updatePlayer_ne _ _ _ _ hne]

/-- C10: when `player_stop` (resp. `player_clear`) succeeds, the session's
cached duration becomes unknown and its seekable flag false — so
`player_get_duration_ms` returns no duration and `player_is_seekable`
returns false — while the entry stays registered with its callback
registration unchanged, and every other session is untouched. -/
theorem stop_clear_reset_duration_keep_entry (id : Nat) (r : Registry) :
    (∀ r' evs, player_stop id r = (.ok r', evs) →
      player_get_duration_ms id r' = .ok none ∧
      player_is_seekable id r' = .ok false ∧
      (lookupPlayer r' id).isSome = true ∧
      (lookupPlayer r' id).map (fun st => st.callback) =
        (lookupPlayer r id).map (fun st => st.callback) ∧
      (∀ j, j ≠ id → lookupPlayer r' j = lookupPlayer r j)) ∧
    (∀ r' evs, player_clear id r = (.ok r', evs) →
      player_get_duration_ms id r' = .ok none ∧
      player_is_seekable id r' = .ok false ∧
      (lookupPlayer r' id).isSome = true ∧
      (lookupPlayer r' id).map (fun st => st.callback) =
        (lookupPlayer r id).map (fun st => st.callback) ∧
      (∀ j, j ≠ id → lookupPlayer r' j = lookupPlayer r j)) := by
  constructor
  · intro r' evs hstop
    cases hlk : lookupPlayer r id with
    | none => simp [player_stop, with_player_mut, hlk] at hstop
    | some st =>
      simp only [player_stop, with_player_mut, hlk, Prod.mk.injEq, Except.ok.injEq] at hstop
      obtain ⟨hr', _⟩ := hstop
      subst hr'
      have hup := lookupPlayer_update r id st
        { st with current_duration := none, seekable := false,
                  sinkLog := st.sinkLog ++ [.stop] } hlk
      refine ⟨?_, ?_, ?_, ?_, ?_⟩
      · simp [player_get_duration_ms, with_player, hup]
      · simp [player_is_seekable, with_player, hup]
      · simp [hup]
      · simp [hup, hlk]
      · intro j hj
        exact lookupPlayer_update_ne r id j _ hj
  · intro r' evs hclear
    cases hlk : lookupPlayer r id with
    | none => simp [player_clear, with_player_mut, hlk] at hclear
    | some st =>
      simp only [player_clear, with_player_mut, hlk, Prod.mk.injEq, Except.ok.injEq] at hclear
      obtain ⟨hr', _⟩ := hclear
      subst hr'
      have hup := lookupPlayer_update r id st
        { st with current_duration := none, seekable := false,
                  sinkLog := st.sinkLog ++ [.clear] } hlk
      refine ⟨?_, ?_, ?_, ?_, ?_⟩
      · simp [player_get_duration_ms, with_player, hup]
      · simp [player_is_seekable, with_player, hup]
      · simp [hup]
      · simp [hup, hlk]
      · intro j hj
        exact lookupPlayer_update_ne r id j _ hj

/-- Witness for C10 at a concrete one-session registry. -/
theorem stop_clear_reset_duration_keep_entry_witness :
    player_stop 1
      { nextId := 2, players := [(1, { callback := some (), current_duration := some 5,
                                       seekable := true, sinkLog := [] })] } =
      (.ok { nextId := 2, players := [(1, { callback := some (), current_duration := none,
                                            seekable := false, sinkLog := [.stop] })] },
       [.onEvent .Stopped]) ∧
    (player_get_duration_ms 1
      { nextId := 2, players := [(1, { callback := some (), current_duration := none,
                                       seekable := false, sinkLog := [.stop] })] } = .ok none ∧
     player_is_seekable 1
      { nextId := 2, players := [(1, { callback := some (), current_duration := none,
                                       seekable := false, sinkLog := [.stop] })] } = .ok false) := by
  refine ⟨by decide, ?_⟩
  have h := (stop_clear_reset_duration_keep_entry 1
    { nextId := 2, players := [(1, { callback := some (), current_duration := some 5,
                                     seekable := true, sinkLog := [] })] }).1
    { nextId := 2, players := [(1, { callback := some (), current_duration := none,
                                     seekable := false, sinkLog := [.stop] })] }
    [.onEvent .Stopped] (by decide)
  exact ⟨h.1, h.2.1⟩

theorem destroy_preserves_nextId (h : Nat) (r r' : Registry)
    (hd : destroy_player h r = .ok r') : r'.nextId = r.nextId := by
  by_cases hex : r.players.any (fun e => e.1 == h)
  · simp only [destroy_player, unregister, hex, if_true, Except.ok.injEq] at hd
    rw [← hd]
  · simp [destroy_player, unregister, hex] at hd

theorem runOps_bounds (ops : List PlayerOp) : ∀ r : Registry,
    (∀ h ∈ (runOps ops r).2, r.nextId ≤ h) ∧ (runOps ops r).2.Pairwise (· < ·) := by
  induction ops with
  | nil =>
    intro r
    exact ⟨by intro h hh; simp [runOps] at hh, by simp [runOps]⟩
  | cons op ops ih =>
    intro r
    cases op with
    | create =>
      have ih' := ih { nextId := r.nextId + 1, players := (r.nextId, defaultPlayer) :: r.players }
      constructor
      · intro h hh
        simp only [runOps, create_player, register] at hh
        rcases List.mem_cons.mp hh with rfl | hh
        · exact le_refl _
        · exact le_trans (Nat.le_succ _) (ih'.1 h hh)
      · simp only [runOps, create_player, register]
        exact List.Pairwise.cons
          (fun h hh => lt_of_lt_of_le (Nat.lt_succ_self _) (ih'.1 h hh)) ih'.2
    | destroy hd =>
      cases hdp : destroy_player hd r with
      | ok r' =>
        have hnx := destroy_preserves_nextId hd r r' hdp
        have ih' := ih r'
        constructor
        · intro h hh
          simp only [runOps, hdp] at hh
          rw [← hnx]
          exact ih'.1 h hh
        · simp only [runOps, hdp]
          exact ih'.2
      | error e =>
        have ih' := ih r
        constructor
        · intro h hh
          simp only [runOps, hdp] at hh
          exact ih'.1 h hh
        · simp only [runOps, hdp]
          exact ih'.2

/-- C9: over any interleaving of `create_player` and `destroy_player` calls
from the initial registry, the handles returned by the creates are strictly
increasing (drawn from the single ever-incrementing counter) and therefore
pairwise distinct — a destroyed session's handle is never handed out
again. -/
theorem create_handles_strictly_increase_never_reused (ops : List PlayerOp) :
    ((runOps ops initialRegistry).2).Pairwise (· < ·) ∧
    ((runOps ops initialRegistry).2).Nodup := by
  have h := runOps_bounds ops initialRegistry
  exact ⟨h.2, List.Pairwise.imp (fun hlt => Nat.ne_of_lt hlt) h.2⟩

theorem playWithNotification_error_mem (c : Bool) (id : Nat) (r : Registry)
    (attempt : Except RodioError Registry) (e : RodioError)
    (hcb : player_callback id r = .ok (some ()))
    (h : (playWithNotification c id r attempt).1 = .error e) :
    .onError e ∈ (playWithNotification c id r attempt).2 := by
  cases attempt with
  | error e' =>
    simp only [playWithNotification, hcb] at h ⊢
    simp at h
    cases c <;> simp [notifyError, notifyEvent, h]
  | ok r' => simp [playWithNotification, hcb] at h

/-- C7 counterexample: on a session with a callback attached,
`player_play_sine` with a non-positive frequency returns the
`InvalidFrequency` error to the caller but performs no callback invocation
at all — in particular the error notification is not invoked. -/
theorem play_sine_param_error_not_notified :
    (lookupPlayer sampleCallbackRegistry 1).map (fun st => st.callback) =
      some (some ()) ∧
    player_play_sine 1 (-1) 100 sampleCallbackRegistry =
      (.error (.InvalidFrequency (-1)), []) := by
  exact ⟨by decide, by decide⟩

/-- C7 (amended): for `player_play_file`, `player_play_url` and
`player_play_radio` on a session with a callback attached, an error result
always comes with an `on_error` invocation carrying that error; for
`player_play_sine` the same holds except for the parameter-validation
failures (non-positive frequency, zero duration), which return before the
callback is consulted. -/
theorem play_errors_notify_callback (id : Nat) (r : Registry) (st : PlayerModel)
    (attempt : Except RodioError Registry) (e : RodioError)
    (hs : lookupPlayer r id = some st) (hcb : st.callback = some ()) :
    ((player_play_file id r attempt).1 = .error e →
      .onError e ∈ (player_play_file id r attempt).2) ∧
    ((player_play_url id r attempt).1 = .error e →
      .onError e ∈ (player_play_url id r attempt).2) ∧
    ((player_play_radio id r attempt).1 = .error e →
      .onError e ∈ (player_play_radio id r attempt).2) ∧
    (∀ (freq : Rat) (dur : Nat), (player_play_sine id freq dur r).1 = .error e →
      .onError e ∈ (player_play_sine id freq dur r).2 ∨
        e = .InvalidFrequency freq ∨ e = .InvalidDuration dur) := by
  have hcb' : player_callback id r = .ok (some ()) := by
    simp [player_callback, with_player, hs, hcb]
  refine ⟨?_, ?_, ?_, ?_⟩
  · exact playWithNotification_error_mem false id r attempt e hcb'
  · exact playWithNotification_error_mem true id r attempt e hcb'
  · exact playWithNotification_error_mem true id r attempt e hcb'
  · intro freq dur h
    by_cases hf : freq ≤ 0
    · right; left
      simp [player_play_sine, hf] at h
      exact h.symm
    · by_cases hd : dur = 0
      · subst hd
        right; right
        simp [player_play_sine, hf] at h
        exact h.symm
      · left
        simp only [player_play_sine, hf, hd, if_false] at h ⊢
        exact playWithNotification_error_mem false id r _ e hcb' h

/-- Witness for C7 (amended) at a concrete session and error. -/
theorem play_errors_notify_callback_witness :
    lookupPlayer sampleCallbackRegistry 1 =
      some { callback := some (), current_duration := none,
             seekable := false, sinkLog := [] } ∧
    .onError (.Http "boom") ∈
      (player_play_url 1 sampleCallbackRegistry (.error (.Http "boom"))).2 :=
  ⟨by decide,
   (play_errors_notify_callback 1 sampleCallbackRegistry
     { callback := some (), current_duration := none,
       seekable := false, sinkLog := [] }
     (.error (.Http "boom")) (.Http "boom") (by decide) rfl).2.1 (by decide)⟩

theorem splitChar_no_sep (f : List Char) (hsep : ';' ∉ f) :
    splitChar ';' f = [f] := by
  induction f with
  | nil => rfl
  | cons c f ih =>
    have hc : ¬ c = ';' := by
      intro h
      exact hsep (h ▸ List.mem_cons_self c f)
    have hrest : ';' ∉ f := fun h => hsep (List.mem_cons_of_mem _ h)
    simp only [splitChar]
    rw [if_neg hc, ih hrest]

theorem splitChar_append_sep (f t : List Char) (hsep : ';' ∉ f) :
    splitChar ';' (f ++ ';' :: t) = f :: splitChar ';' t := by
  induction f with
  | nil => simp [splitChar]
  | cons c f ih =>
    have hc : ¬ c = ';' := by
      intro h
      exact hsep (h ▸ List.mem_cons_self c f)
    have hrest : ';' ∉ f := fun h => hsep (List.mem_cons_of_mem _ h)
    simp only [List.cons_append, splitChar, List.append_eq]
    rw [if_neg hc, ih hrest]

theorem splitChar_joinSemis (fields : List (List Char)) (hne : fields ≠ [])
    (hsep : ∀ f ∈ fields, ';' ∉ f) :
    splitChar ';' (joinSemis fields) = fields := by
  induction fields with
  | nil => cases hne rfl
  | cons f fields ih =>
    cases fields with
    | nil => exact splitChar_no_sep f (hsep f (List.mem_cons_self f []))
    | cons g fields' =>
      rw [joinSemis, splitChar_append_sep _ _ (hsep f (List.mem_cons_self f _)),
        ih (List.cons_ne_nil g fields') (fun x hx => hsep x (List.mem_cons_of_mem _ hx))]
      exact fun h => List.noConfusion h

/-- C2 counterexample: the metadata block `=x` (bytes 61 120) yields the
pair with an empty key rather than being skipped — the parser performs no
empty-key check. -/
theorem parse_icy_empty_key_not_skipped :
    parse_icy_metadata_block [61, 120] = [([], ['x'])] ∧
    ¬ (∀ p ∈ parse_icy_metadata_block [61, 120], p.1 ≠ []) := by
  exact ⟨by decide, by decide⟩

/-- C2 (amended): `parse_icy_metadata_block` decodes the block as text,
trims null padding and whitespace and returns no entries when the result is
empty; otherwise it splits on `;` and parses each field independently in
source order (so `key1=val1;key2=val2` yields exactly those two pairs):
fields without `=` or with an empty value (after stripping surrounding
single/double quotes) are skipped individually without failing the block,
quotes are stripped from values — but fields with an empty key are kept,
with the empty key. -/
theorem parse_icy_metadata_block_spec :
    (∀ bytes : List Nat,
      rustTrim (trimMatchesChar (Char.ofNat 0) (bytes.map utf8LossyByte)) = [] →
      parse_icy_metadata_block bytes = []) ∧
    parse_icy_metadata_block (("key1=val1;key2=val2".toList).map Char.toNat) =
      [("key1".toList, "val1".toList), ("key2".toList, "val2".toList)] ∧
    (∀ fields : List (List Char), fields ≠ [] →
      (∀ f ∈ fields, ';' ∉ f) →
      rustTrim (trimMatchesChar (Char.ofNat 0) (joinSemis fields)) = joinSemis fields →
      parseIcyText (joinSemis fields) = fields.filterMap parseIcyField) ∧
    (parseIcyField ("noequals".toList) = none ∧
     parseIcyField ("k=".toList) = none ∧
     parseIcyField ("k='v'".toList) = some (['k'], ['v']) ∧
     parseIcyField ("k=\"v\"".toList) = some (['k'], ['v']) ∧
     parseIcyField ("=v".toList) = some ([], ['v'])) := by
  refine ⟨?_, by decide, ?_, by decide⟩
  · intro bytes h
    simp [parse_icy_metadata_block, parseIcyText, h]
  · intro fields hne hsep hw
    by_cases hempty : joinSemis fields = []
    · simp only [parseIcyText, hw, hempty, List.isEmpty_nil, if_true]
      cases fields with
      | nil => cases hne rfl
      | cons f rest =>
        cases rest with
        | nil =>
          have hf : f = [] := by simpa [joinSemis] using hempty
          subst hf
          rfl
        | cons g rest' =>
          exfalso
          simp [joinSemis] at hempty
    · have hie : (joinSemis fields).isEmpty = false := by
        simpa [List.isEmpty_iff] using hempty
      simp only [parseIcyText, hw, hie, Bool.false_eq_true, if_false,
        splitChar_joinSemis fields hne hsep]

/-- Witness for C2 (amended), instantiating the join/split part at two
concrete fields. -/
theorem parse_icy_metadata_block_spec_witness :
    parseIcyText (joinSemis ["a=1".toList, "b=2".toList]) =
      (["a=1".toList, "b=2".toList]).filterMap parseIcyField :=
  parse_icy_metadata_block_spec.2.2.1 ["a=1".toList, "b=2".toList]
    (by decide) (by decide) (by decide)

theorem selectLoop_no_streaminf (l : List VariantStream) :
    ∀ best, (∀ v ∈ l, isStreamInf v = false) → selectLoop best l = best := by
  induction l with
  | nil => intro best _; rfl
  | cons v l ih =>
    intro best h
    cases v with
    | ExtXIFrame u b =>
      rw [show selectLoop best (VariantStream.ExtXIFrame u b :: l) = selectLoop best l from rfl]
      exact ih best (fun x hx => h x (List.mem_cons_of_mem _ hx))
    | ExtXStreamInf u b =>
      have := h _ (List.mem_cons_self _ _)
      simp [isStreamInf] at this

theorem selectLoop_cons_iframe (best : Option (VariantStream × Nat)) (u : String)
    (b : Nat) (l : List VariantStream) :
    selectLoop best (VariantStream.ExtXIFrame u b :: l) = selectLoop best l := rfl

theorem selectLoop_cons_inf_none (u : String) (b : Nat) (l : List VariantStream) :
    selectLoop none (VariantStream.ExtXStreamInf u b :: l) =
      selectLoop (some (VariantStream.ExtXStreamInf u b, b)) l := rfl

theorem selectLoop_cons_inf_lt (q : VariantStream × Nat) (u : String) (b : Nat)
    (l : List VariantStream) (ht : q.2 < b) :
    selectLoop (some q) (VariantStream.ExtXStreamInf u b :: l) =
      selectLoop (some (VariantStream.ExtXStreamInf u b, b)) l := by
  show (if (decide (q.2 < b)) = true
        then selectLoop (some (VariantStream.ExtXStreamInf u b, b)) l
        else selectLoop (some q) l) =
      selectLoop (some (VariantStream.ExtXStreamInf u b, b)) l
  rw [decide_eq_true ht]
  rfl

theorem selectLoop_cons_inf_ge (q : VariantStream × Nat) (u : String) (b : Nat)
    (l : List VariantStream) (ht : ¬ q.2 < b) :
    selectLoop (some q) (VariantStream.ExtXStreamInf u b :: l) =
      selectLoop (some q) l := by
  show (if (decide (q.2 < b)) = true
        then selectLoop (some (VariantStream.ExtXStreamInf u b, b)) l
        else selectLoop (some q) l) =
      selectLoop (some q) l
  rw [decide_eq_false ht]
  rfl

theorem selectLoop_some_ne_none (l : List VariantStream) :
    ∀ x, selectLoop (some x) l ≠ none := by
  induction l with
  | nil => intro x h; cases h
  | cons v l ih =>
    intro x
    cases v with
    | ExtXIFrame u b => rw [selectLoop_cons_iframe]; exact ih x
    | ExtXStreamInf u b =>
      by_cases ht : (x.2 < b)
      · rw [selectLoop_cons_inf_lt x u b l ht]
        exact ih _
      · rw [selectLoop_cons_inf_ge x u b l ht]
        exact ih x

theorem selectLoop_streaminf_ne_none (l : List VariantStream) (v : VariantStream)
    (hv : v ∈ l) (hsi : isStreamInf v = true) :
    ∀ best, selectLoop best l ≠ none := by
  induction l with
  | nil => cases hv
  | cons w l ih =>
    intro best
    cases w with
    | ExtXIFrame u b =>
      rw [selectLoop_cons_iframe]
      rcases List.mem_cons.mp hv with rfl | hv'
      · simp [isStreamInf] at hsi
      · exact ih hv' best
    | ExtXStreamInf u b =>
      cases best with
      | none =>
        rw [selectLoop_cons_inf_none]
        exact selectLoop_some_ne_none l _
      | some q =>
        by_cases ht : (q.2 < b)
        · rw [selectLoop_cons_inf_lt q u b l ht]
          exact selectLoop_some_ne_none l _
        · rw [selectLoop_cons_inf_ge q u b l ht]
          exact selectLoop_some_ne_none l q

theorem selectLoop_spec (l : List VariantStream) :
    ∀ best, bestInv best →
      ∀ pr, selectLoop best l = some pr →
        bestInv (some pr) ∧
        (∀ v ∈ l, isStreamInf v = true → v.bandwidth ≤ pr.2) ∧
        (∀ q, best = some q → q.2 ≤ pr.2) ∧
        (pr.1 ∈ l ∨ best = some pr) := by
  induction l with
  | nil =>
    intro best hinv pr h
    rw [show selectLoop best [] = best from rfl] at h
    subst h
    refine ⟨hinv, ?_, ?_, Or.inr rfl⟩
    · intro v hv
      cases hv
    · intro q hq
      cases hq
      exact le_refl _
  | cons v l ih =>
    intro best hinv pr h
    cases v with
    | ExtXIFrame u b =>
      rw [selectLoop_cons_iframe] at h
      obtain ⟨h1, h2, h3, h4⟩ := ih best hinv pr h
      refine ⟨h1, ?_, h3, ?_⟩
      · intro w hw hsw
        rcases List.mem_cons.mp hw with rfl | hw'
        · simp [isStreamInf] at hsw
        · exact h2 w hw' hsw
      · rcases h4 with h4 | h4
        · exact Or.inl (List.mem_cons_of_mem _ h4)
        · exact Or.inr h4
    | ExtXStreamInf u b =>
      have hstep : ∀ (hsel : selectLoop (some (VariantStream.ExtXStreamInf u b, b)) l = some pr),
          bestInv (some pr) ∧
          (∀ w ∈ VariantStream.ExtXStreamInf u b :: l,
            isStreamInf w = true → w.bandwidth ≤ pr.2) ∧
          b ≤ pr.2 ∧
          pr.1 ∈ VariantStream.ExtXStreamInf u b :: l := by
        intro hsel
        obtain ⟨h1, h2, h3, h4⟩ := ih (some (VariantStream.ExtXStreamInf u b, b)) ⟨u, rfl⟩ pr hsel
        have hb : b ≤ pr.2 := h3 _ rfl
        refine ⟨h1, ?_, hb, ?_⟩
        · intro w hw hsw
          rcases List.mem_cons.mp hw with rfl | hw'
          · exact hb
          · exact h2 w hw' hsw
        · rcases h4 with h4 | h4
          · exact List.mem_cons_of_mem _ h4
          · have hpr : pr.1 = VariantStream.ExtXStreamInf u b := by
              have := congrArg (fun o => Option.map Prod.fst o) h4
              simpa using this.symm
            rw [hpr]
            exact List.mem_cons_self _ _
      cases best with
      | none =>
        rw [selectLoop_cons_inf_none] at h
        obtain ⟨h1, h2, hb, h4⟩ := hstep h
        refine ⟨h1, h2, ?_, Or.inl h4⟩
        intro q hq
        cases hq
      | some q =>
        by_cases ht : (q.2 < b)
        · rw [selectLoop_cons_inf_lt q u b l ht] at h
          obtain ⟨h1, h2, hb, h4⟩ := hstep h
          refine ⟨h1, h2, ?_, Or.inl h4⟩
          intro q' hq'
          cases hq'
          exact le_trans (le_of_lt ht) hb
        · rw [selectLoop_cons_inf_ge q u b l ht] at h
          obtain ⟨h1, h2, h3, h4⟩ := ih (some q) hinv pr h
          have hq : q.2 ≤ pr.2 := h3 q rfl
          refine ⟨h1, ?_, h3, ?_⟩
          · intro w hw hsw
            rcases List.mem_cons.mp hw with rfl | hw'
            · exact le_trans (le_of_not_lt ht) hq
            · exact h2 w hw' hsw
          · rcases h4 with h4 | h4
            · exact Or.inl (List.mem_cons_of_mem _ h4)
            · exact Or.inr h4

/-- C3: on a master playlist with at least one regular stream-information
variant, `select_hls_variant_url` resolves (against the master's URL) the
URI of a stream-information variant whose bandwidth is maximal among the
stream-information entries — an I-frame-only variant is never the selected
one — and with no regular variant it is the hard playlist error.  In
particular, with bandwidths 500000 and 1200000 it selects the 1200000
variant. -/
theorem select_hls_variant_highest_bandwidth (master : MasterPlaylist) (base_url : Url) :
    ((∃ v ∈ master.variant_streams, isStreamInf v = true) →
      ∃ uri bw, VariantStream.ExtXStreamInf uri bw ∈ master.variant_streams ∧
        (∀ v ∈ master.variant_streams, isStreamInf v = true → v.bandwidth ≤ bw) ∧
        select_hls_variant_url master base_url = resolve_hls_url base_url uri) ∧
    ((∀ v ∈ master.variant_streams, isStreamInf v = false) →
      select_hls_variant_url master base_url =
        .error (.Playlist "hls master playlist has no stream variants")) ∧
    select_hls_variant_url
      { variant_streams := [VariantStream.ExtXStreamInf "low.m3u8" 500000,
                            VariantStream.ExtXStreamInf "high.m3u8" 1200000] } base_url =
      resolve_hls_url base_url "high.m3u8" := by
  refine ⟨?_, ?_, rfl⟩
  · rintro ⟨v0, hv0, hsi0⟩
    cases hsel : selectLoop none master.variant_streams with
    | none => exact absurd hsel (selectLoop_streaminf_ne_none _ v0 hv0 hsi0 none)
    | some pr =>
      obtain ⟨⟨uri, hpr⟩, hbound, _, hmem⟩ :=
        selectLoop_spec master.variant_streams none trivial pr hsel
      refine ⟨uri, pr.2, ?_, hbound, ?_⟩
      · rcases hmem with hmem | hmem
        · rw [← hpr]; exact hmem
        · cases hmem
      · simp only [select_hls_variant_url, hsel]
        rw [hpr]
  · intro hno
    simp only [select_hls_variant_url, selectLoop_no_streaminf _ none hno]

/-- Witness for C3 at the two-variant master of the specification's
example. -/
theorem select_hls_variant_highest_bandwidth_witness :
    (∃ v ∈ [VariantStream.ExtXStreamInf "low.m3u8" 500000,
            VariantStream.ExtXStreamInf "high.m3u8" 1200000], isStreamInf v = true) ∧
    (∃ uri bw,
      VariantStream.ExtXStreamInf uri bw ∈
        [VariantStream.ExtXStreamInf "low.m3u8" 500000,
         VariantStream.ExtXStreamInf "high.m3u8" 1200000] ∧
      (∀ v ∈ [VariantStream.ExtXStreamInf "low.m3u8" 500000,
              VariantStream.ExtXStreamInf "high.m3u8" 1200000],
        isStreamInf v = true → v.bandwidth ≤ bw) ∧
      select_hls_variant_url
        { variant_streams := [VariantStream.ExtXStreamInf "low.m3u8" 500000,
                              VariantStream.ExtXStreamInf "high.m3u8" 1200000] }
        { scheme := "http", rest := "//h/master.m3u8" } =
        resolve_hls_url { scheme := "http", rest := "//h/master.m3u8" } uri) :=
  ⟨⟨VariantStream.ExtXStreamInf "high.m3u8" 1200000, by decide, by decide⟩,
   (select_hls_variant_highest_bandwidth
     { variant_streams := [VariantStream.ExtXStreamInf "low.m3u8" 500000,
                           VariantStream.ExtXStreamInf "high.m3u8" 1200000] }
     { scheme := "http", rest := "//h/master.m3u8" }).1
     ⟨VariantStream.ExtXStreamInf "high.m3u8" 1200000, by decide, by decide⟩⟩

/-- C8 counterexample: with base `notaurl` (no scheme, so `Url::parse`
fails) the first candidate is the relative `song.mp3`; the scan does not
stop there but falls through and returns the second entry, so the first
candidate does not alone determine the result and later entries are
considered. -/
theorem resolve_playlist_falls_through :
    resolve_playlist "notaurl" "song.mp3\nhttp://example.com/a.mp3" =
      some "http://example.com/a.mp3" ∧
    firstCandidateSpec (rustLines "song.mp3\nhttp://example.com/a.mp3") =
      some ("song.mp3".toList) ∧
    looksAbsoluteHttp ("song.mp3".toList) = false ∧
    urlParse "notaurl" = none := by
  exact ⟨by decide, by decide, by decide, by decide⟩

/-- C8 (amended): the scan skips blank lines, comments and `key=value`
lines whose key does not start with "file"; the first candidate that
resolves determines the result — used as-is when it starts with
`http://`/`https://`, otherwise joined against the parsed base URL — while
a relative candidate that cannot be resolved (unparseable base, or a join
failure) is skipped and scanning continues with later entries; a body with
no resolvable candidate yields `none`, which the radio player turns into
the hard playlist error.  The `File1=http://example.com/stream.mp3` body
resolves to `http://example.com/stream.mp3` for every base. -/
theorem resolve_playlist_spec :
    (∀ (line : List Char),
      (rustTrim line).isEmpty = true ∨ (rustTrim line).take 1 = ['#'] →
      lineCandidate line = none) ∧
    (∀ (base : Option Url) (rest : List (List Char)) (line : List Char),
      lineCandidate line = none →
      resolvePlaylistLines base (line :: rest) = resolvePlaylistLines base rest) ∧
    (∀ (base : Option Url) (rest : List (List Char)) (line cand : List Char),
      lineCandidate line = some cand → looksAbsoluteHttp cand = true →
      resolvePlaylistLines base (line :: rest) = some (String.mk cand)) ∧
    (∀ (b : Url) (rest : List (List Char)) (line cand : List Char) (j : Url),
      lineCandidate line = some cand → looksAbsoluteHttp cand = false →
      urlJoin b (String.mk cand) = some j →
      resolvePlaylistLines (some b) (line :: rest) = some j.toString) ∧
    (∀ (base : Option Url) (rest : List (List Char)) (line cand : List Char),
      lineCandidate line = some cand → looksAbsoluteHttp cand = false →
      (base = none ∨ ∃ b, base = some b ∧ urlJoin b (String.mk cand) = none) →
      resolvePlaylistLines base (line :: rest) = resolvePlaylistLines base rest) ∧
    (∀ (base_url body : String), resolve_playlist base_url body = none →
      resolvePlaylistOrError base_url body =
        .error (.Playlist "playlist did not contain a stream url")) ∧
    (∀ base_url : String,
      resolve_playlist base_url "File1=http://example.com/stream.mp3" =
        some "http://example.com/stream.mp3") := by
  refine ⟨?_, ?_, ?_, ?_, ?_, ?_, ?_⟩
  · intro line h
    rcases h with h | h
    · simp [lineCandidate, h]
    · simp [lineCandidate, h]
  · intro base rest line h
    simp [resolvePlaylistLines, h]
  · intro base rest line cand h habs
    simp [resolvePlaylistLines, h, habs]
  · intro b rest line cand j h habs hj
    simp [resolvePlaylistLines, h, habs, hj]
  · intro base rest line cand h habs hbase
    rcases hbase with rfl | ⟨b, rfl, hj⟩
    · simp [resolvePlaylistLines, h, habs]
    · simp [resolvePlaylistLines, h, habs, hj]
  · intro base_url body h
    simp [resolvePlaylistOrError, h]
  · intro base_url
    rfl

/-- Witness for C8 (amended): the absolute-candidate conjunct at a
concrete line. -/
theorem resolve_playlist_spec_witness :
    lineCandidate ("File1=http://example.com/stream.mp3".toList) =
      some ("http://example.com/stream.mp3".toList) ∧
    looksAbsoluteHttp ("http://example.com/stream.mp3".toList) = true ∧
    resolvePlaylistLines none ["File1=http://example.com/stream.mp3".toList] =
      some (String.mk ("http://example.com/stream.mp3".toList)) :=
  ⟨by decide, by decide,
   resolve_playlist_spec.2.2.1 none [] ("File1=http://example.com/stream.mp3".toList)
     ("http://example.com/stream.mp3".toList) (by decide) (by decide)⟩

theorem next_segment_url_cached
    (purl : Url) (nsq : Option Nat) (p : MediaPlaylist)
    (nfuel : Nat) (pf : List FetchResult) (seg : MediaSegment)
    (hidx : p.segments.get?
      (max (nsq.getD p.media_sequence) p.media_sequence - p.media_sequence) = some seg) :
    next_segment_url (nfuel + 1)
      { playlist_url := purl, cached_playlist := some p,
        next_sequence := nsq, ended := false } pf =
      (match validate_hls_segment seg with
       | .error e => .error e
       | .ok _ =>
         match resolve_hls_url purl seg.uri with
         | .error e => .error e
         | .ok url =>
           .ok (some url,
             { playlist_url := purl, cached_playlist := some p,
               next_sequence :=
                 some (max (nsq.getD p.media_sequence) p.media_sequence + 1),
               ended := false }, pf)) := by
  obtain ⟨hlt, -⟩ := List.get?_eq_some.mp hidx
  have hlen : ¬ p.segments.length = 0 := by
    intro h0
    rw [h0] at hlt
    cases hlt
  have hnle : ¬ p.segments.length ≤
      max (nsq.getD p.media_sequence) p.media_sequence - p.media_sequence :=
    Nat.not_le.mpr hlt
  rw [List.get?_eq_getElem?] at hidx
  by_cases hcl : nsq.getD p.media_sequence < p.media_sequence
  · have hmax : max (nsq.getD p.media_sequence) p.media_sequence = p.media_sequence :=
      Nat.max_eq_right (le_of_lt hcl)
    rw [hmax] at hidx hnle
    rw [Nat.sub_self] at hidx hnle
    simp only [next_segment_url]
    simp [hcl, hlen, hmax, hnle, hidx]
  · have hmax : max (nsq.getD p.media_sequence) p.media_sequence =
        nsq.getD p.media_sequence :=
      Nat.max_eq_left (Nat.le_of_not_lt hcl)
    rw [hmax] at hidx hnle
    simp only [next_segment_url]
    simp [hcl, hlen, hmax, hnle, hidx]

theorem validate_hls_segment_error (seg : MediaSegment)
    (hbad : seg.map = true ∨ seg.byte_range = true ∨
      seg.keys.any (fun k => k) = true) :
    ∃ m, validate_hls_segment seg = .error (.Playlist m) ∧
      (m = "hls init segments are not supported" ∨
       m = "hls byte-range segments are not supported" ∨
       m = "hls encrypted segments are not supported") := by
  by_cases hm : seg.map = true
  · exact ⟨_, by simp [validate_hls_segment, hm], Or.inl rfl⟩
  · have hm' : seg.map = false := by simpa using hm
    by_cases hb : seg.byte_range = true
    · exact ⟨_, by simp [validate_hls_segment, hm', hb], Or.inr (Or.inl rfl)⟩
    · have hb' : seg.byte_range = false := by simpa using hb
      rcases hbad with h | h | h
      · exact absurd h hm
      · exact absurd h hb
      · exact ⟨_, by simp [validate_hls_segment, hm', hb', h], Or.inr (Or.inr rfl)⟩

/-- C4: with the media playlist cached and the next-to-fetch segment in
range, a segment using an init section (`map`), byte-range addressing or
any encryption key makes `next_segment_url` fail with the corresponding
descriptive "not supported" playlist error, and the enclosing `read`
returns that error without consuming any segment HTTP response (`sf` is
returned untouched — the error is raised before the segment fetch); a
supported segment advances the sequence counter by exactly one past the
effective sequence (`eff`, the stored counter clamped up to the playlist's
`media_sequence`; equal to the stored counter whenever that is not below
`media_sequence`) and returns the segment URI resolved against the
playlist's own URL, with absolute URIs used verbatim. -/
theorem hls_segment_validation_spec
    (s : HlsStreamReader) (p : MediaPlaylist) (seg : MediaSegment)
    (nfuel fuel : Nat) (pf : List FetchResult)
    (sf : List (Except RodioError (List Nat))) (bufLen pos eff : Nat)
    (hended : s.ended = false)
    (hcache : s.cached_playlist = some p)
    (heff : eff = max (s.next_sequence.getD p.media_sequence) p.media_sequence)
    (hidx : p.segments.get? (eff - p.media_sequence) = some seg) :
    ((seg.map = true ∨ seg.byte_range = true ∨
        seg.keys.any (fun k => k) = true) →
      ∃ m, validate_hls_segment seg = .error (.Playlist m) ∧
        (m = "hls init segments are not supported" ∨
         m = "hls byte-range segments are not supported" ∨
         m = "hls encrypted segments are not supported") ∧
        next_segment_url (nfuel + 1) s pf = .error (.Playlist m) ∧
        hlsRead (fuel + 1) (nfuel + 1)
          { reader := s, current_response := none, pos := pos } pf sf bufLen =
          (.error (.Playlist m),
           { reader := s, current_response := none, pos := pos }, pf, sf)) ∧
    (seg.map = false → seg.byte_range = false →
      seg.keys.any (fun k => k) = false →
      ∀ u, resolve_hls_url s.playlist_url seg.uri = .ok u →
        next_segment_url (nfuel + 1) s pf =
          .ok (some u, { s with next_sequence := some (eff + 1) }, pf)) ∧
    (∀ q, s.next_sequence = some q → p.media_sequence ≤ q → eff = q) ∧
    (∀ (base : Url) (cand : String) (u : Url), urlParse cand = some u →
      resolve_hls_url base cand = .ok u) := by
  obtain ⟨purl, cp, nsq, e⟩ := s
  simp only at hended hcache heff hidx
  subst hended hcache heff
  have hnext := next_segment_url_cached purl nsq p nfuel pf seg hidx
  refine ⟨?_, ?_, ?_, ?_⟩
  · intro hbad
    obtain ⟨m, hval, hm⟩ := validate_hls_segment_error seg hbad
    refine ⟨m, hval, hm, ?_, ?_⟩
    · rw [hnext, hval]
    · simp only [hlsRead]
      rw [hnext, hval]
      rfl
  · intro hm hb hk u hres
    have hval : validate_hls_segment seg = .ok () := by
      simp [validate_hls_segment, hm, hb, hk]
    simp only at hres
    rw [hnext, hval, hres]
  · intro q hq hle
    simp only at hq
    rw [hq]
    simp only [Option.getD_some]
    exact Nat.max_eq_left hle
  · intro base cand u h
    simp [resolve_hls_url, h]

/-- Witness for C4: a byte-range segment is rejected with no segment fetch
consumed, at a concrete playlist. -/
theorem hls_segment_validation_spec_witness :
    (({ map := false, byte_range := true, keys := [], uri := "s0.ts" } :
        MediaSegment).byte_range = true) ∧
    (∃ m, validate_hls_segment
        { map := false, byte_range := true, keys := [], uri := "s0.ts" } =
          .error (.Playlist m) ∧
      (m = "hls init segments are not supported" ∨
       m = "hls byte-range segments are not supported" ∨
       m = "hls encrypted segments are not supported") ∧
      next_segment_url 5
        { playlist_url := { scheme := "http", rest := "//h/p.m3u8" },
          cached_playlist := some
            { segments := [{ map := false, byte_range := true, keys := [],
                             uri := "s0.ts" }],
              target_duration := 0, has_end_list := true, media_sequence := 0 },
          next_sequence := none, ended := false } [] = .error (.Playlist m) ∧
      hlsRead 5 5
        { reader :=
            { playlist_url := { scheme := "http", rest := "//h/p.m3u8" },
              cached_playlist := some
                { segments := [{ map := false, byte_range := true, keys := [],
                                 uri := "s0.ts" }],
                  target_duration := 0, has_end_list := true, media_sequence := 0 },
              next_sequence := none, ended := false },
          current_response := none, pos := 0 } [] [.ok [1, 2, 3]] 10 =
        (.error (.Playlist m),
         { reader :=
             { playlist_url := { scheme := "http", rest := "//h/p.m3u8" },
               cached_playlist := some
                 { segments := [{ map := false, byte_range := true, keys := [],
                                  uri := "s0.ts" }],
                   target_duration := 0, has_end_list := true, media_sequence := 0 },
               next_sequence := none, ended := false },
           current_response := none, pos := 0 }, [], [.ok [1, 2, 3]])) :=
  ⟨rfl,
   (hls_segment_validation_spec
     { playlist_url := { scheme := "http", rest := "//h/p.m3u8" },
       cached_playlist := some
         { segments := [{ map := false, byte_range := true, keys := [],
                          uri := "s0.ts" }],
           target_duration := 0, has_end_list := true, media_sequence := 0 },
       next_sequence := none, ended := false }
     { segments := [{ map := false, byte_range := true, keys := [], uri := "s0.ts" }],
       target_duration := 0, has_end_list := true, media_sequence := 0 }
     { map := false, byte_range := true, keys := [], uri := "s0.ts" }
     4 4 [] [.ok [1, 2, 3]] 10 0 0 rfl rfl (by decide) (by decide)).1
     (Or.inr (Or.inl rfl))⟩

theorem take_ne_nil_of_pos (l : List Nat) (t : Nat) (hl : l ≠ []) (ht : 0 < t) :
    l.take t ≠ [] := by
  cases l with
  | nil => cases hl rfl
  | cons x xs =>
    cases t with
    | zero => cases ht
    | succ t => simp [List.take]

theorem sub_min_bound (m n t : Nat) (h : m ≤ n) : m - t ≤ n - min t m := by
  rcases le_total t m with ht | ht
  · rw [Nat.min_eq_left ht]
    exact Nat.sub_le_sub_right h t
  · rw [Nat.sub_eq_zero_of_le ht]
    exact Nat.zero_le _

theorem icyRead_step (n L : Nat) (meta : List Nat) (s : IcyReader) (a : List Nat)
    (k : Nat) (hn : 0 < n) (hinv : IcyPhase n L meta s a) :
    ∃ out rest s', icyRead s k = some (out, s') ∧ a = out ++ rest ∧
      IcyPhase n L meta s' rest ∧ (a ≠ [] → 0 < k → out ≠ []) := by
  obtain ⟨hmi, hml, hcase⟩ := hinv
  rcases hcase with ⟨a1, a2, ha, hinner, hrem, ha2⟩ | ⟨hinner, hlen⟩
  · by_cases ha1e : a1 = []
    · subst ha1e
      simp only [List.nil_append] at ha hinner
      have hrem0 : s.remaining_until_meta = 0 := by simpa using hrem
      have hle : L * 16 ≤ (meta ++ a2).length := by
        rw [List.length_append, hml]
        exact Nat.le_add_right _ _
      have hcons : icyConsumeMeta s n =
          some (false, { s with inner := a2, remaining_until_meta := n }) := by
        rw [icyConsumeMeta, hinner, List.cons_append]
        dsimp only
        rw [if_pos hle, ← hml, List.drop_left]
      refine ⟨a2.take (min k n), a2.drop (min k n),
        { s with inner := a2.drop (min k n),
                 remaining_until_meta := n - (a2.take (min k n)).length },
        ?_, ?_, ?_, ?_⟩
      · simp only [icyRead, hmi, hrem0, if_true]
        rw [hcons]
        simp [icyReadAudio, hmi]
      · rw [ha]
        exact (List.take_append_drop _ _).symm
      · refine ⟨hmi, hml, Or.inr ⟨rfl, ?_⟩⟩
        simp only [List.length_drop, List.length_take]
        exact sub_min_bound a2.length n (min k n) ha2
      · intro hane hk
        rw [ha] at hane
        exact take_ne_nil_of_pos a2 (min k n) hane (lt_min hk hn)
    · have hpos : 0 < a1.length := List.length_pos.mpr ha1e
      have hrne : ¬ s.remaining_until_meta = 0 := by
        rw [hrem]
        exact Nat.pos_iff_ne_zero.mp hpos
      have htr : min k a1.length ≤ a1.length := Nat.min_le_right _ _
      refine ⟨a1.take (min k a1.length),
        a1.drop (min k a1.length) ++ a2,
        { s with inner := a1.drop (min k a1.length) ++ L :: meta ++ a2,
                 remaining_until_meta := a1.length - min k a1.length },
        ?_, ?_, ?_, ?_⟩
      · simp only [icyRead, hmi]
        rw [if_neg hrne]
        simp only [icyReadAudio, hrem]
        rw [hinner, List.append_assoc, List.take_append_eq_append_take,
          List.drop_append_eq_append_drop]
        rw [Nat.sub_eq_zero_of_le htr]
        simp [List.length_take, Nat.min_eq_left htr, List.append_assoc, hmi]
      · rw [ha, ← List.append_assoc, List.take_append_drop]
      · refine ⟨hmi, hml, Or.inl ⟨a1.drop (min k a1.length), a2, rfl, rfl, ?_, ha2⟩⟩
        simp [List.length_drop]
      · intro _ hk
        exact take_ne_nil_of_pos _ _ ha1e (lt_min hk hpos)
  · by_cases hrem0 : s.remaining_until_meta = 0
    · have halen : a.length = 0 := Nat.le_zero.mp (hrem0 ▸ hlen)
      have ha : a = [] := List.length_eq_zero.mp halen
      subst ha
      refine ⟨[], [], s, ?_, rfl, ⟨hmi, hml, Or.inr ⟨hinner, hlen⟩⟩, ?_⟩
      · simp only [icyRead, hmi, hrem0, if_true]
        rw [icyConsumeMeta, hinner]
      · intro hne _
        cases hne rfl
    · refine ⟨a.take (min k s.remaining_until_meta),
        a.drop (min k s.remaining_until_meta),
        { s with inner := a.drop (min k s.remaining_until_meta),
                 remaining_until_meta := s.remaining_until_meta -
                   (a.take (min k s.remaining_until_meta)).length },
        ?_, ?_, ?_, ?_⟩
      · simp only [icyRead, hmi]
        rw [if_neg hrem0]
        simp [icyReadAudio, hinner, hmi]
      · exact (List.take_append_drop _ _).symm
      · refine ⟨hmi, hml, Or.inr ⟨rfl, ?_⟩⟩
        simp only [List.length_drop, List.length_take]
        exact sub_min_bound a.length s.remaining_until_meta _ hlen
      · intro hane hk
        exact take_ne_nil_of_pos a _ hane
          (lt_min hk (Nat.pos_of_ne_zero hrem0))

theorem icyReadAll_spec (n L : Nat) (meta : List Nat) (hn : 0 < n) :
    ∀ (ks : List Nat) (s : IcyReader) (a : List Nat), IcyPhase n L meta s a →
    ∃ out rest s', icyReadAll s ks = some (out, s') ∧ a = out ++ rest ∧
      IcyPhase n L meta s' rest ∧
      ((∀ k ∈ ks, 0 < k) → a.length ≤ ks.length → rest = []) := by
  intro ks
  induction ks with
  | nil =>
    intro s a hinv
    refine ⟨[], a, s, rfl, rfl, hinv, ?_⟩
    intro _ hlen
    exact List.length_eq_zero.mp (Nat.le_zero.mp (by simpa using hlen))
  | cons k ks ih =>
    intro s a hinv
    obtain ⟨out1, rest1, s1, hread, hsplit, hinv1, hprog⟩ :=
      icyRead_step n L meta s a k hn hinv
    obtain ⟨out2, rest2, s2, hreadAll, hsplit2, hinv2, hfin⟩ := ih s1 rest1 hinv1
    refine ⟨out1 ++ out2, rest2, s2, ?_, ?_, hinv2, ?_⟩
    · simp only [icyReadAll]
      rw [hread]
      dsimp only
      rw [hreadAll]
      rfl
    · rw [hsplit, hsplit2, List.append_assoc]
    · intro hpos hlen
      by_cases ha : a = []
      · subst ha
        have hr1 : rest1 = [] := (List.append_eq_nil.mp hsplit.symm).2
        apply hfin (fun k' hk' => hpos k' (List.mem_cons_of_mem _ hk'))
        rw [hr1]
        exact Nat.zero_le _
      · have hko : 0 < k := hpos k (List.mem_cons_self _ _)
        have hone : 0 < out1.length :=
          List.length_pos.mpr (hprog ha hko)
        have h1 : a.length = out1.length + rest1.length := by
          rw [hsplit, List.length_append]
        have hlen' : a.length ≤ ks.length + 1 := by
          simpa using hlen
        have hlen1 : rest1.length ≤ ks.length := by omega
        exact hfin (fun k' hk' => hpos k' (List.mem_cons_of_mem _ hk')) hlen1

/-- C1: for a positive interval `n` and an inner stream laid out as `n`
audio bytes, a length prefix `L`, `L * 16` metadata bytes, then at most `n`
trailing audio bytes, reading through `IcyMetadataReader` with any sequence
of buffer sizes yields a prefix of the audio with the metadata stripped —
exactly the whole audio when the reads are positive and numerous enough; no
single read returns more audio bytes than remain until the next metadata
boundary; consuming a metadata block (including an empty one, `L = 0`)
resets the countdown to the interval; and with an absent or zero interval
the reader passes reads through unchanged. -/
theorem icy_reader_strips_metadata (n L : Nat) (a1 meta a2 : List Nat)
    (ks : List Nat) (hn : 0 < n) (ha1 : a1.length = n)
    (hmeta : meta.length = L * 16) (ha2 : a2.length ≤ n) :
    (∃ out s', icyReadAll (IcyReader.new (a1 ++ L :: meta ++ a2) (some n)) ks =
        some (out, s') ∧
      (∃ rest, a1 ++ a2 = out ++ rest) ∧
      ((∀ k ∈ ks, 0 < k) → a1.length + a2.length ≤ ks.length →
        out = a1 ++ a2)) ∧
    (∀ (s : IcyReader) (k : Nat) (out : List Nat) (s' : IcyReader),
      s.meta_interval = some n → 0 < s.remaining_until_meta →
      icyRead s k = some (out, s') →
      out.length ≤ s.remaining_until_meta) ∧
    (∀ (s s' : IcyReader) (eof : Bool),
      icyConsumeMeta s n = some (eof, s') → eof = false →
      s'.remaining_until_meta = n) ∧
    (∀ (inner : List Nat) (k : Nat),
      icyRead (IcyReader.new inner none) k =
        some (inner.take k,
          { inner := inner.drop k, meta_interval := none,
            remaining_until_meta := 0 }) ∧
      icyRead (IcyReader.new inner (some 0)) k =
        some (inner.take k,
          { inner := inner.drop k, meta_interval := none,
            remaining_until_meta := 0 })) := by
  refine ⟨?_, ?_, ?_, ?_⟩
  · have hinv : IcyPhase n L meta
        (IcyReader.new (a1 ++ L :: meta ++ a2) (some n)) (a1 ++ a2) := by
      refine ⟨?_, hmeta, Or.inl ⟨a1, a2, rfl, ?_, ?_, ha2⟩⟩
      · simp [IcyReader.new, hn]
      · rfl
      · simp [IcyReader.new, hn, ha1]
    obtain ⟨out, rest, s', hall, hsplit, _, hfin⟩ :=
      icyReadAll_spec n L meta hn ks _ _ hinv
    refine ⟨out, s', hall, ⟨rest, hsplit⟩, ?_⟩
    intro hpos hlen
    have hrest : rest = [] := by
      apply hfin hpos
      rw [List.length_append]
      exact hlen
    rw [hrest] at hsplit
    rw [hsplit, List.append_nil]
  · intro s k out s' hmi hpos hread
    simp only [icyRead, hmi] at hread
    rw [if_neg (Nat.pos_iff_ne_zero.mp hpos)] at hread
    have h := Option.some.inj hread
    have hout : out = s.inner.take (min k s.remaining_until_meta) :=
      (congrArg Prod.fst h).symm
    rw [hout, List.length_take]
    exact le_trans (min_le_left _ _) (Nat.min_le_right k _)
  · intro s s' eof hcons heof
    subst heof
    rw [icyConsumeMeta] at hcons
    cases hi : s.inner with
    | nil =>
      rw [hi] at hcons
      simp at hcons
    | cons l rest =>
      rw [hi] at hcons
      dsimp only at hcons
      by_cases hle : l * 16 ≤ rest.length
      · rw [if_pos hle] at hcons
        have h := Option.some.inj hcons
        have hs' := congrArg Prod.snd h
        dsimp only at hs'
        rw [← hs']
      · rw [if_neg hle] at hcons
        cases hcons
  · intro inner k
    exact ⟨rfl, rfl⟩

/-- Witness for C1: a 2-byte interval, one 16-byte metadata block and a
trailing byte, drained with unit reads. -/
theorem icy_reader_strips_metadata_witness :
    (0 < 2 ∧ ([10, 11] : List Nat).length = 2 ∧
      (List.replicate 16 0).length = 1 * 16 ∧ ([30] : List Nat).length ≤ 2) ∧
    (∃ out s',
      icyReadAll (IcyReader.new ([10, 11] ++ 1 :: List.replicate 16 0 ++ [30])
        (some 2)) [1, 1, 1, 1] = some (out, s') ∧
      (∃ rest, [10, 11] ++ [30] = out ++ rest) ∧
      ((∀ k ∈ [1, 1, 1, 1], 0 < k) →
        ([10, 11] : List Nat).length + ([30] : List Nat).length ≤
          ([1, 1, 1, 1] : List Nat).length →
        out = [10, 11] ++ [30])) :=
  ⟨⟨by decide, by decide, by decide, by decide⟩,
   (icy_reader_strips_metadata 2 1 [10, 11] (List.replicate 16 0) [30]
     [1, 1, 1, 1] (by decide) (by decide) (by decide) (by decide)).1⟩

end Rodio
